import Mathlib

/-!
Verification of the entity-behavior core of `ineffably/vibe-space-shooter`.

Shallow embedding of:
* the generic `StateMachine` class (`src/states/state-machine.ts` and
  `sidequest/core/state-machine.ts`; their transition logic is identical),
* the generic `ObjectPool` class (`sidequest/core/state-machine.ts`),
* `Projectile` and `ProjectilePool` (`src/entities/projectile.ts`),
* `PlayerShip` (`src/entities/player-ship.ts`),
* `EnemyShip` (`src/entities/enemy-ship.ts`).

Conventions used throughout:
* TypeScript numbers that only ever hold integers (health, lives, damage,
  counters) are `Int` or `Nat`; continuous quantities (positions, timers,
  deltaTime) are `ℚ`.
* Fire-and-forget calls into external collaborators (sounds, explosion
  visuals, texture lookup, console logging) have no effect on the modelled
  state and are noted in comments where they occur in the source.
* `Math.sin` / `Math.PI` (used only by enemy horizontal movement) are
  modelled by an abstract `MathLib` parameter so that the embedding stays
  executable; no claim depends on trigonometric values.
-/

namespace VibeShooter

/-! ## Generic state machine

From `src/states/state-machine.ts` (and the line-for-line identical
`sidequest/core/state-machine.ts`).  A `State` is a named record of
`enter` / `update` / `exit` callbacks.  In the source the callbacks receive
the machine and act on its owner; here they are modelled as transformers of
an owner state `σ`, which is all the claims about `setState` need. -/

structure SMState (σ : Type) where
  name : String
  enter : σ → σ
  update : σ → ℚ → σ
  exit : σ → σ

/-- `StateMachine`: a nullable current state, a `Map` from state name to
state (insertion-ordered, last registration wins), and the owner. -/
structure SM (σ : Type) where
  currentState : Option (SMState σ)
  states : List (SMState σ)
  owner : σ

/-- `Map.get` / `Map.has`: find the state registered under `n`. -/
def findState {σ : Type} (n : String) : List (SMState σ) → Option (SMState σ)
  | [] => none
  | s :: rest => if s.name = n then some s else findState n rest

/-- `StateMachine.addState`: `this.states.set(state.name, state)` —
overwrites in place if the name is already registered, else appends. -/
def SM.addState {σ : Type} (s : SMState σ) (m : SM σ) : SM σ :=
  { m with states := go m.states }
where
  go : List (SMState σ) → List (SMState σ)
  | [] => [s]
  | t :: rest => if t.name = s.name then s :: rest else t :: go rest

/-- `StateMachine.setState`: if the name is unregistered, log a warning and
return (the `console.warn` is external); otherwise exit the current state
(if any), swap, and enter the new state.  Note: the source performs **no**
same-name check — `setState` with the current state's own name still runs
`exit` then `enter`. -/
def SM.setState {σ : Type} (n : String) (m : SM σ) : SM σ :=
  match findState n m.states with
  | none => m
  | some s =>
    let o1 := match m.currentState with
      | some c => c.exit m.owner
      | none => m.owner
    { m with currentState := some s, owner := s.enter o1 }

/-- `StateMachine.update`: delegate to the current state, no-op if unset. -/
def SM.update {σ : Type} (dt : ℚ) (m : SM σ) : SM σ :=
  match m.currentState with
  | none => m
  | some c => { m with owner := c.update m.owner dt }

/-! ### An instrumented machine for observing `enter`/`exit` calls

Call-count instrumentation: the owner is a pair counting how many times the
state's `exit` and `enter` callbacks have run. -/

/-- A state named `"x"` whose `exit` bumps the first counter and whose
`enter` bumps the second. -/
def stateX : SMState (Nat × Nat) :=
  { name := "x"
    enter := fun p => (p.1, p.2 + 1)
    update := fun p _ => p
    exit := fun p => (p.1 + 1, p.2) }

/-- A machine that is currently in state `"x"`, with both counters at 0. -/
def mC1 : SM (Nat × Nat) :=
  { currentState := some stateX, states := [stateX], owner := (0, 0) }

/-! ## Generic object pool

From `ObjectPool<T>` in `sidequest/core/state-machine.ts`.  Pooled objects
are identified by the order of their construction (`factory()` calls), so
the factory hands out consecutive `Nat` ids; `obj.setActive(..)` mutates
the pooled object itself, not the pool, and is not part of pool state. -/

structure Pool where
  activeObjects : List Nat
  inactiveObjects : List Nat
  /-- Number of objects the factory has constructed so far. -/
  nextId : Nat
  maxSize : Nat
deriving DecidableEq

/-- The `ObjectPool` constructor: build `initialSize` objects, mark each
inactive, and push it onto the inactive list. -/
def mkPool (initialSize maxSize : Nat) : Pool :=
  { activeObjects := []
    inactiveObjects := List.range initialSize
    nextId := initialSize
    maxSize := maxSize }

/-- `ObjectPool.get`: pop from the inactive list if non-empty (JS
`Array.pop` takes the **last** element) and push onto the active list;
else, at the size cap, recycle the oldest active object (`shift` + `push`);
else construct a new object. -/
def Pool.get (p : Pool) : Nat × Pool :=
  match p.inactiveObjects.getLast? with
  | some obj =>
    (obj, { p with
              inactiveObjects := p.inactiveObjects.dropLast
              activeObjects := p.activeObjects ++ [obj] })
  | none =>
    if 0 < p.maxSize ∧ p.maxSize ≤ p.activeObjects.length then
      match p.activeObjects with
      | obj :: rest => (obj, { p with activeObjects := rest ++ [obj] })
      | [] => (p.nextId, p)  -- unreachable: the cap branch forces a non-empty active list
    else
      (p.nextId, { p with
                     activeObjects := p.activeObjects ++ [p.nextId]
                     nextId := p.nextId + 1 })

/-- `ObjectPool.release`: `indexOf` + `splice` removes the **first**
occurrence from the active list (if any); the object is then marked
inactive (object-side effect) and **unconditionally** pushed onto the
inactive list — the source has no membership check on the inactive side. -/
def Pool.release (i : Nat) (p : Pool) : Pool :=
  { p with
      activeObjects := p.activeObjects.erase i
      inactiveObjects := p.inactiveObjects ++ [i] }

/-- `ObjectPool.getActiveCount`. -/
def Pool.getActiveCount (p : Pool) : Nat := p.activeObjects.length

/-- `ObjectPool.getInactiveCount`. -/
def Pool.getInactiveCount (p : Pool) : Nat := p.inactiveObjects.length

/-- `ObjectPool.getTotalCount`. -/
def Pool.getTotalCount (p : Pool) : Nat :=
  p.activeObjects.length + p.inactiveObjects.length

/-- One externally visible pool operation. -/
inductive PoolOp where
  | get : PoolOp
  | release : Nat → PoolOp
deriving DecidableEq

/-- Apply one pool operation (the id returned by `get` is ignored here). -/
def Pool.step : PoolOp → Pool → Pool
  | .get, p => (Pool.get p).2
  | .release i, p => Pool.release i p

/-- Run a finite sequence of `get`/`release` calls. -/
def Pool.run (ops : List PoolOp) (p : Pool) : Pool :=
  ops.foldl (fun q op => Pool.step op q) p

/-- Traces in which `release` is only ever called on an object that is a
member of the active partition at that moment. -/
inductive GoodTrace : Pool → List PoolOp → Prop
  | nil (p : Pool) : GoodTrace p []
  | get (p : Pool) (ops : List PoolOp) :
      GoodTrace (Pool.step .get p) ops → GoodTrace p (.get :: ops)
  | release (p : Pool) (i : Nat) (ops : List PoolOp) :
      i ∈ p.activeObjects →
      GoodTrace (Pool.step (.release i) p) ops → GoodTrace p (.release i :: ops)

/-- Structural well-formedness of a pool: no duplicates inside a partition,
the partitions are disjoint, and every listed id has been constructed. -/
def PoolInv (p : Pool) : Prop :=
  p.activeObjects.Nodup ∧ p.inactiveObjects.Nodup ∧
  (∀ x ∈ p.activeObjects, x ∉ p.inactiveObjects) ∧
  (∀ x ∈ p.activeObjects, x < p.nextId) ∧
  (∀ x ∈ p.inactiveObjects, x < p.nextId)

/-! ## Projectile

From `src/entities/projectile.ts`.  A projectile owns a three-state FSM
(Active → Exploding → Inactive); all three states are registered by
`initializeStates`, so every `setState` call on the names below finds its
target, and the machine's exit+enter semantics reduce to the enter effects
(all three `exit` callbacks are empty).  Entering Inactive calls
`returnToPool`, which acts on the owning `ProjectilePool` if the `pool`
reference was set; that pool-side effect is returned as a `Bool` request
and applied by the caller-level models below. -/

inductive ProjState where
  | active | exploding | inactive
deriving DecidableEq

inductive ProjType where
  | player | enemy
deriving DecidableEq

structure Projectile where
  ptype : ProjType
  x : ℚ
  y : ℚ
  damage : Int
  velocityY : ℚ
  screenWidth : ℚ
  screenHeight : ℚ
  /-- Name of the FSM's current state. -/
  state : ProjState
  /-- `ProjectileExplodingState.explosionTimer` (a field of the state
  object instantiated per projectile). -/
  explosionTimer : ℚ
  /-- `Entity.active`. -/
  active : Bool
  /-- Whether `setPool` has been called (nullable `pool` reference). -/
  hasPool : Bool
deriving DecidableEq

/-- `ProjectileExplodingState.explosionTime` (0.2 s of accumulated
deltaTime). -/
def explosionTime : ℚ := 1/5

/-- `stateMachine.setState` on a projectile: all exits are empty; the
returned `Bool` is true iff entering Inactive issued `returnToPool` on a
set pool reference. -/
def Projectile.setState (s : ProjState) (p : Projectile) : Projectile × Bool :=
  match s with
  | .active => ({ p with state := .active, active := true }, false)
  | .exploding =>
    -- enter: reset the explosion timer, spawn the pixel explosion
    -- (external), hide the projectile via setActive(false)
    ({ p with state := .exploding, explosionTimer := 0, active := false }, false)
  | .inactive => ({ p with state := .inactive, active := false }, p.hasPool)

/-- `Projectile.move`: advance along the fixed vertical velocity (the
container position update is display-only). -/
def Projectile.move (dt : ℚ) (p : Projectile) : Projectile :=
  { p with y := p.y + p.velocityY * dt }

/-- `Projectile.update` is the inherited `Entity.update`: always tick the
state machine; the post-FSM part of `Entity.update` is empty. -/
def Projectile.update (dt : ℚ) (p : Projectile) : Projectile × Bool :=
  match p.state with
  | .active =>
    let p1 := p.move dt
    -- ProjectileActiveState.update: out-of-bounds check after moving
    if p1.y < -50 ∨ p1.y > p1.screenHeight + 50 then p1.setState .inactive
    else (p1, false)
  | .exploding =>
    let p1 := { p with explosionTimer := p.explosionTimer + dt }
    if explosionTime ≤ p1.explosionTimer then p1.setState .inactive
    else (p1, false)
  | .inactive => (p, false)

/-- `Projectile.fire`: reset position, force state to Active (whose `enter`
sets the projectile active; no pool request can result). -/
def Projectile.fire (x y : ℚ) (p : Projectile) : Projectile :=
  (Projectile.setState .active { p with x := x, y := y }).1

/-- `Projectile.onCollision`: force state to Exploding (no pool request). -/
def Projectile.onCollision (p : Projectile) : Projectile :=
  (Projectile.setState .exploding p).1

/-- The `Projectile` constructor: `initializeStates` puts the fresh
projectile in Inactive (its `enter` runs `setActive(false)`; `returnToPool`
is a no-op because the `pool` reference is only set afterwards, if ever). -/
def mkProjectile (t : ProjType) (x y : ℚ) (damage : Int) (vy w h : ℚ) :
    Projectile :=
  { ptype := t, x := x, y := y, damage := damage, velocityY := vy
    screenWidth := w, screenHeight := h
    state := .inactive, explosionTimer := 0, active := false, hasPool := false }

/-! ## ProjectilePool

From `ProjectilePool` in `src/entities/projectile.ts`.  Projectiles are
stored in `projs` and identified by their index; `activeIds` and
`inactiveIds` model the `activeProjectiles` / `inactiveProjectiles`
arrays (which hold object references in the source). -/

structure PPool where
  projs : List Projectile
  activeIds : List Nat
  inactiveIds : List Nat
  ptype : ProjType
  damage : Int
  velocityY : ℚ
  screenWidth : ℚ
  screenHeight : ℚ
deriving DecidableEq

/-- `ProjectilePool.createProjectile`: construct, `setPool(this)`, and
`setActive(false)` (already false after construction). -/
def PPool.createProjectile (s : PPool) : Projectile :=
  { mkProjectile s.ptype 0 0 s.damage s.velocityY s.screenWidth s.screenHeight
      with hasPool := true }

/-- The `ProjectilePool` constructor: preallocate `initialSize` projectiles
into the inactive list. -/
def mkPPool (initialSize : Nat) (t : ProjType) (damage : Int) (vy w h : ℚ) :
    PPool :=
  let proto : PPool :=
    { projs := [], activeIds := [], inactiveIds := []
      ptype := t, damage := damage, velocityY := vy
      screenWidth := w, screenHeight := h }
  { proto with
      projs := List.replicate initialSize proto.createProjectile
      inactiveIds := List.range initialSize }

/-- `ProjectilePool.getProjectile`: reuse the last inactive projectile
(`Array.pop`) or construct a new one; either way push it onto the active
list.  (Unlike the generic `ObjectPool.get`, this does not touch the
projectile itself — the caller is expected to `fire` it.) -/
def PPool.getProjectile (s : PPool) : Nat × PPool :=
  match s.inactiveIds.getLast? with
  | some id =>
    (id, { s with inactiveIds := s.inactiveIds.dropLast
                  activeIds := s.activeIds ++ [id] })
  | none =>
    let id := s.projs.length
    (id, { s with projs := s.projs ++ [s.createProjectile]
                  activeIds := s.activeIds ++ [id] })

/-- `ProjectilePool.returnProjectile`: remove the first occurrence from the
active list, then append to the inactive list **only if not already
included** (this pool, unlike the generic `ObjectPool`, checks). -/
def PPool.returnProjectile (id : Nat) (s : PPool) : PPool :=
  { s with activeIds := s.activeIds.erase id
           inactiveIds := if id ∈ s.inactiveIds then s.inactiveIds
                          else s.inactiveIds ++ [id] }

/-- `projectile.fire(x, y)` called on the pool member `id` (as
`PlayerShip.shoot` does after `getProjectile`). -/
def PPool.fire (id : Nat) (x y : ℚ) (s : PPool) : PPool :=
  match s.projs[id]? with
  | none => s
  | some p => { s with projs := s.projs.set id (p.fire x y) }

/-- `projectile.onCollision()` called on the pool member `id` (as the
scene's collision arbitration does). -/
def PPool.onCollision (id : Nat) (s : PPool) : PPool :=
  match s.projs[id]? with
  | none => s
  | some p => { s with projs := s.projs.set id p.onCollision }

/-- One step of the `ProjectilePool.update` loop body at index `i`:
`this.activeProjectiles[i].update(deltaTime)`.  If the update drove the
projectile into Inactive, its `returnToPool` (run synchronously inside the
state's `enter`) calls `returnProjectile`, splicing it out of the active
array mid-loop exactly as in the source. -/
def PPool.processPos (dt : ℚ) (i : Nat) (s : PPool) : PPool :=
  match s.activeIds[i]? with
  | none => s
  | some id =>
    match s.projs[id]? with
    | none => s
    | some p =>
      let pr := p.update dt
      let s1 := { s with projs := s.projs.set id pr.1 }
      if pr.2 then s1.returnProjectile id else s1

/-- The descending loop `for (let i = activeProjectiles.length - 1; i >= 0;
i--)`: `updateAux dt n` processes positions `n-1, n-2, …, 0` of the
evolving active array. -/
def PPool.updateAux (dt : ℚ) : Nat → PPool → PPool
  | 0, s => s
  | i + 1, s => PPool.updateAux dt i (s.processPos dt i)

/-- `ProjectilePool.update`. -/
def PPool.update (dt : ℚ) (s : PPool) : PPool :=
  PPool.updateAux dt s.activeIds.length s

/-- Iterated frame updates of the pool. -/
def PPool.iterate (dt : ℚ) : Nat → PPool → PPool
  | 0, s => s
  | n + 1, s => PPool.iterate dt n (s.update dt)

/-- `projectile.deactivate()` on member `id` (used by `deactivateAll`):
`setState(INACTIVE)`, whose `enter` triggers `returnToPool`. -/
def PPool.deactivateOne (id : Nat) (s : PPool) : PPool :=
  match s.projs[id]? with
  | none => s
  | some p =>
    let pr := p.setState .inactive
    let s1 := { s with projs := s.projs.set id pr.1 }
    if pr.2 then s1.returnProjectile id else s1

/-- `ProjectilePool.deactivateAll`: deactivate a snapshot copy of the
active list, then clear the active array. -/
def PPool.deactivateAll (s : PPool) : PPool :=
  let s1 := s.activeIds.foldl (fun t id => t.deactivateOne id) s
  { s1 with activeIds := [] }

/-- The pool member `id` is mid-explosion: it still owns its slot in the
active array, is not yet in the inactive partition, and its stored
projectile is Exploding with accumulated timer `t` and a set pool
reference. -/
def ExplProj (s : PPool) (id : Nat) (t : ℚ) : Prop :=
  id ∉ s.inactiveIds ∧
  ∃ p, s.projs[id]? = some p ∧ p.state = ProjState.exploding ∧
    p.explosionTimer = t ∧ p.hasPool = true

/-- The pool member `id` has been reclaimed: out of the active array, in
the inactive partition, stored as Inactive. -/
def ReclaimedAt (s : PPool) (id : Nat) : Prop :=
  id ∉ s.activeIds ∧ id ∈ s.inactiveIds ∧
  ∃ p, s.projs[id]? = some p ∧ p.state = ProjState.inactive

/-- Invariant of the descending `ProjectilePool.update` loop at loop
index `i` (positions `i-1 … 0` still to process), watching the exploding
member `id` whose timer was `t` when the pass began: either it has not yet
been processed this pass (it sits at a position below `i`), or it has been
processed and the pass outcome — reclaim if the timer `t + dt` reached the
explosion duration, otherwise still exploding at a position at or above
`i` — is already determined. -/
def DescInv (dt : ℚ) (id : Nat) (t : ℚ) (i : Nat) (s : PPool) : Prop :=
  s.activeIds.Nodup ∧
  ((ExplProj s id t ∧ ∃ k, k < i ∧ s.activeIds[k]? = some id) ∨
   (explosionTime ≤ t + dt ∧ ReclaimedAt s id) ∨
   (¬ explosionTime ≤ t + dt ∧ ExplProj s id (t + dt) ∧
      ∃ k, i ≤ k ∧ s.activeIds[k]? = some id))

/-! ## PlayerShip

From `src/entities/player-ship.ts`.  The player's six FSM states are all
registered by `initializeStates`, so every `setState` below finds its
target; the machine's exit-then-enter semantics (no same-name check) are
spelled out per state.  The per-state timer fields live on the state
objects instantiated once per player and are modelled as player fields.
External effects (sounds, explosion visuals, sprite/tint/alpha changes to
the PIXI objects, console logging) are noted where the source performs
them.  Input-driven state `update` callbacks poll the `InputManager` and
are not needed by any claim, so they are not modelled. -/

inductive PlayerFsm where
  | idle | moving | shooting | damaged | destroyed | invulnerable
deriving DecidableEq

/-- `PlayerShip.maxHealth`. -/
def maxHealth : Int := 100

/-- `PlayerShip.maxShieldHealth`. -/
def maxShieldHealth : Int := 100

structure Player where
  health : Int
  lives : Int
  score : Int
  shieldHealth : Int
  x : ℚ
  y : ℚ
  /-- Sprite width/height (set from the texture when the sprite attaches). -/
  width : ℚ
  height : ℚ
  screenWidth : ℚ
  screenHeight : ℚ
  /-- `Entity.active`. -/
  active : Bool
  /-- `Entity.container.visible` (toggled by `Entity.setActive`). -/
  containerVisible : Bool
  /-- `sprite.visible` (toggled by `PlayerShip.setVisibility`). -/
  spriteVisible : Bool
  /-- `sprite.alpha` dimmed flag (toggled by `setDamageVisual`). -/
  damagedVisual : Bool
  /-- Name of the FSM's current state. -/
  fsm : PlayerFsm
  shootTimer : ℚ
  damageTimer : ℚ
  destroyTimer : ℚ
  invulnerableTimer : ℚ
  flashTimer : ℚ
  /-- `PlayerInvulnerableState.isVisible`. -/
  invulIsVisible : Bool
  /-- The player's exclusively owned projectile pool. -/
  pool : PPool
  /-- Number of times the game-over notification (`gameOver()`: sound plus
  the scene-installed callback) has fired. -/
  gameOverCalls : Nat
deriving DecidableEq

/-- `PlayerShip.shoot`: take a projectile from the pool and fire it from
the top center of the player (container attachment and the laser sound are
external). -/
def Player.shoot (p : Player) : Player :=
  let r := p.pool.getProjectile
  { p with pool := r.2.fire r.1 p.x (p.y - p.height / 2) }

/-- `exit` callback of the player state named `s`. -/
def Player.stateExit (s : PlayerFsm) (p : Player) : Player :=
  match s with
  | .idle | .moving | .shooting => p
  | .damaged => { p with damagedVisual := false }       -- setDamageVisual(false)
  | .destroyed =>
    -- exit: setActive(true) (also shows the container), setVisibility(true)
    { p with active := true, containerVisible := true, spriteVisible := true }
  | .invulnerable => { p with spriteVisible := true }   -- setVisibility(true)

/-- `enter` callback of the player state named `s`. -/
def Player.stateEnter (s : PlayerFsm) (p : Player) : Player :=
  match s with
  | .idle | .moving => p
  | .shooting => { p.shoot with shootTimer := 0 }       -- fire once, reset timer
  | .damaged => { p with damagedVisual := true, damageTimer := 0 }
  | .destroyed =>
    -- enter: fixed destroy time, timers reset, sonic explosion + large
    -- explosion sound (external), hide and deactivate the player
    { p with destroyTimer := 0, active := false, containerVisible := false
             spriteVisible := false }
  | .invulnerable =>
    { p with invulnerableTimer := 0, flashTimer := 0, invulIsVisible := true
             active := true, containerVisible := true, spriteVisible := true }

/-- `stateMachine.setState` on the player: exit the current state, swap,
enter the new state (all six names are registered; no same-name check). -/
def Player.setState (s : PlayerFsm) (p : Player) : Player :=
  Player.stateEnter s { Player.stateExit p.fsm p with fsm := s }

/-- `PlayerShip.takeDamage`. -/
def Player.takeDamage (amount : Int) (p : Player) : Player :=
  -- skip damage entirely while destroyed or invulnerable
  if p.fsm = .destroyed ∨ p.fsm = .invulnerable then p
  else
    -- play PLAYER_DAMAGE sound (external)
    if 0 < p.shieldHealth then
      -- shields absorb the hit: shieldHealth -= amount, clamped at 0
      -- (shield visual update / hide are external); health untouched
      let sh := p.shieldHealth - amount
      if sh ≤ 0 then { p with shieldHealth := 0 }
      else { p with shieldHealth := sh }
    else
      let h := p.health - amount
      if h ≤ 0 then Player.setState .destroyed { p with health := 0 }
      else Player.setState .damaged { p with health := h }

/-- `PlayerShip.destroy`: the only place that decrements `lives` and (at
zero lives) fires the game-over notification. -/
def Player.destroyPlayer (p : Player) : Player :=
  let p1 := Player.setState .destroyed { p with lives := p.lives - 1 }
  if p1.lives ≤ 0 then { p1 with gameOverCalls := p1.gameOverCalls + 1 }
  else p1

/-- `PlayerShip.onRespawn` (called by `PlayerDestroyedState.update` once
its timer expires). -/
def Player.onRespawn (p : Player) : Player :=
  if 0 < p.lives then
    let p1 := { p with health := maxHealth
                       x := p.screenWidth / 2, y := p.screenHeight - 120 }
    let p2 := { p1 with pool := p1.pool.deactivateAll }  -- clearProjectiles
    let p3 := { p2 with active := true, containerVisible := true
                        spriteVisible := true }
    Player.setState .invulnerable p3
  else p

/-- `PlayerShip.addShield`: refill to full regardless of prior value
(visual update and activation sound are external). -/
def Player.addShield (p : Player) : Player :=
  { p with shieldHealth := maxShieldHealth }

/-- The `PlayerShip` constructor (screen defaults 800×600 in the source;
the sprite's scaled dimensions are parameters here).  `initializeStates`
and the constructor both `setState(IDLE)`; idle's callbacks are empty. -/
def mkPlayer (x y w h pw ph : ℚ) : Player :=
  { health := 100, lives := 3, score := 0, shieldHealth := 0
    x := x, y := y, width := pw, height := ph
    screenWidth := w, screenHeight := h
    active := true, containerVisible := true, spriteVisible := true
    damagedVisual := false
    fsm := .idle
    shootTimer := 0, damageTimer := 0, destroyTimer := 0
    invulnerableTimer := 0, flashTimer := 0, invulIsVisible := true
    pool := mkPPool 10 .player 50 (-10) w h
    gameOverCalls := 0 }

/-! ## EnemyShip

From `src/entities/enemy-ship.ts`.  The five enemy FSM states are
registered by `initializeStates`, which then sets the initial state to
Moving (the Idle state's `update` schedules its transition through an
asynchronous `setTimeout` outside the tick; no code path ever enters Idle,
and it is modelled as inert).  `Math.sin`/`Math.PI`, used only for the
horizontal sine-wave movement, are supplied through an abstract `MathLib`
so the model stays executable. -/

structure MathLib where
  sin : ℚ → ℚ
  pi : ℚ

inductive EnemyFsm where
  | idle | moving | shooting | damaged | destroyed
deriving DecidableEq

structure Enemy where
  health : Int
  /-- `speed` (assigned 2, never read by the movement code). -/
  speed : ℚ
  /-- `horizontalDirection` (randomized at construction, unused). -/
  horizontalDirection : Int
  verticalSpeed : ℚ
  /-- Shooting cooldown in milliseconds. -/
  shootCooldown : ℚ
  timeSinceLastShot : ℚ
  screenWidth : ℚ
  screenHeight : ℚ
  /-- `activeProjectiles`: the enemy's own outstanding-shots list. -/
  activeProjectiles : List Projectile
  movementPhase : ℚ
  movementAmplitude : ℚ
  movementFrequency : ℚ
  spawnX : ℚ
  x : ℚ
  y : ℚ
  /-- `Entity.active`. -/
  active : Bool
  /-- `Entity.container.visible`. -/
  containerVisible : Bool
  /-- Whether the texture lookup succeeded and a sprite exists. -/
  hasSprite : Bool
  /-- `sprite.height` after the 0.6 scale. -/
  spriteHeight : ℚ
  /-- Red tint flag (`setDamagedVisual`). -/
  damagedVisual : Bool
  /-- Name of the FSM's current state. -/
  fsm : EnemyFsm
  shootingTimer : ℚ
  damagedTimer : ℚ
  destroyedTimer : ℚ

/-- `enter` callback of the enemy state named `s` (all `exit` callbacks are
empty).  EnemyDestroyedState.enter spawns the sonic explosion (external)
and calls `enemy.setActive(false)`, which on the `false` branch is just the
base `Entity.setActive` (clear the active flag, hide the container). -/
def Enemy.stateEnter (s : EnemyFsm) (e : Enemy) : Enemy :=
  match s with
  | .idle | .moving => e
  | .shooting => { e with shootingTimer := 0 }
  | .damaged => { e with damagedTimer := 0, damagedVisual := true }
  | .destroyed =>
    { e with destroyedTimer := 0, active := false, containerVisible := false }

/-- `stateMachine.setState` on the enemy (all five names registered; every
`exit` is empty, so the transition is the target's `enter`). -/
def Enemy.setState (s : EnemyFsm) (e : Enemy) : Enemy :=
  Enemy.stateEnter s { e with fsm := s }

/-- `EnemyShip.setActive`: the base behavior plus, when activating, a
health reset to 100 and a forced transition to Moving. -/
def Enemy.setActive (b : Bool) (e : Enemy) : Enemy :=
  let e1 := { e with active := b, containerVisible := b }
  if b then Enemy.setState .moving { e1 with health := 100 } else e1

/-- `EnemyShip.takeDamage`. -/
def Enemy.takeDamage (amount : Int) (e : Enemy) : Enemy :=
  if e.health ≤ 0 then e
  else
    let e1 := Enemy.setState .damaged { e with health := e.health - amount }
    if e1.health ≤ 0 then Enemy.setState .destroyed e1 else e1

/-- `EnemyShip.shoot`: skip when inactive or sprite-less, or at the hard
cap of 3 outstanding shots; otherwise construct a fresh enemy projectile
(damage 25, downward velocity 5), fire it from the bottom center, track it
in `activeProjectiles`, and flip into the Shooting animation state
(container attachment, laser sound and logging are external). -/
def Enemy.shoot (e : Enemy) : Enemy :=
  if ¬ e.active ∨ ¬ e.hasSprite then e
  else if 3 ≤ e.activeProjectiles.length then e
  else
    let px := e.x
    let py := e.y + e.spriteHeight / 2
    let proj := (mkProjectile .enemy px py 25 5 e.screenWidth e.screenHeight).fire px py
    Enemy.setState .shooting
      { e with activeProjectiles := e.activeProjectiles ++ [proj] }

/-- `EnemyShip.move`: descend, advance the sine phase, chase the sine
target with a per-tick horizontal speed cap, and reflect the phase at the
side walls. -/
def Enemy.move (ml : MathLib) (dt : ℚ) (e : Enemy) : Enemy :=
  let y1 := e.y + e.verticalSpeed * dt
  let phase := e.movementPhase + e.movementFrequency * dt * (1/10)
  let offsetX := ml.sin phase * e.movementAmplitude
  let targetX := e.spawnX + offsetX
  let deltaX := targetX - e.x
  let maxH := 1 * dt
  let capped := (if deltaX < 0 then -1 else if deltaX = 0 then 0 else 1) *
                  min |deltaX| maxH
  let x1 := e.x + capped
  if x1 < 30 then
    { e with y := y1, x := 30, movementPhase := ml.pi - phase }
  else if x1 > e.screenWidth - 30 then
    { e with y := y1, x := e.screenWidth - 30, movementPhase := ml.pi - phase }
  else
    { e with y := y1, x := x1, movementPhase := phase }

/-- The current enemy state's `update` callback. -/
def Enemy.fsmUpdate (ml : MathLib) (dt : ℚ) (e : Enemy) : Enemy :=
  match e.fsm with
  | .idle => e  -- schedules setState(MOVING) via setTimeout (asynchronous,
                -- outside the tick); Idle is never entered in any code path
  | .moving => e.move ml dt
  | .shooting =>
    let t := e.shootingTimer + dt
    if 3/10 ≤ t then Enemy.setState .moving { e with shootingTimer := t }
    else { e with shootingTimer := t }
  | .damaged =>
    let e1 := { e with damagedTimer := e.damagedTimer + dt }
    if 1/5 ≤ e1.damagedTimer then
      if e1.health ≤ 0 then Enemy.setState .destroyed e1
      else { Enemy.setState .moving e1 with damagedVisual := false }
    else e1
  | .destroyed => { e with destroyedTimer := e.destroyedTimer + dt }

/-- Phase 2 of `EnemyShip.update`: `if (this.active && this.timeSinceLastShot
>= this.shootCooldown) { this.shoot(); this.timeSinceLastShot = 0; }`. -/
def Enemy.updateShootPhase (e2 : Enemy) : Enemy :=
  if e2.active ∧ e2.shootCooldown ≤ e2.timeSinceLastShot
  then { Enemy.shoot e2 with timeSinceLastShot := 0 }
  else e2

/-- Phase 3 of `EnemyShip.update`: advance each tracked projectile and
splice out the ones that report inactive (reverse iteration with
self-splice is equivalent to map-then-filter because a projectile's update
only touches that projectile). -/
def Enemy.updateProjsPhase (dt : ℚ) (e3 : Enemy) : Enemy :=
  let projs2 :=
    (e3.activeProjectiles.map (fun p => (p.update dt).1)).filter
      (fun p => p.active)
  { e3 with activeProjectiles := projs2 }

/-- Phase 4 of `EnemyShip.update`: self-deactivate below the bottom edge. -/
def Enemy.updateBoundsPhase (e4 : Enemy) : Enemy :=
  if e4.active then
    if e4.screenHeight + (50 : ℚ) < e4.y then Enemy.setActive false e4 else e4
  else e4

/-- `EnemyShip.update`: tick the FSM (`super.update` always does),
accumulate the shot cooldown in milliseconds (`deltaTime * 16.67`), then
run the three phases above in source order. -/
def Enemy.update (ml : MathLib) (dt : ℚ) (e : Enemy) : Enemy :=
  let e1 := Enemy.fsmUpdate ml dt e
  let e2 := { e1 with timeSinceLastShot := e1.timeSinceLastShot + dt * (1667/100) }
  Enemy.updateBoundsPhase (Enemy.updateProjsPhase dt (Enemy.updateShootPhase e2))

/-- The `EnemyShip` constructor.  The `Math.random()` draws are passed in
as `r0..r3 ∈ [0,1)` and the texture lookup result as `hasSprite`/`sh`. -/
def mkEnemy (ml : MathLib) (x y w h : ℚ) (r0 r1 r2 r3 : ℚ)
    (dirRight : Bool) (hasSprite : Bool) (sh : ℚ) : Enemy :=
  { health := 100, speed := 2
    horizontalDirection := if dirRight then 1 else -1
    verticalSpeed := 1
    shootCooldown := 500 + r3 * 1500, timeSinceLastShot := 0
    screenWidth := w, screenHeight := h
    activeProjectiles := []
    movementPhase := r0 * ml.pi * 2
    movementAmplitude := 20 + r1 * 30
    movementFrequency := 3/10 + r2 * (1/2)
    spawnX := x, x := x, y := y
    active := true, containerVisible := true
    hasSprite := hasSprite, spriteHeight := sh
    damagedVisual := false
    fsm := .moving
    shootingTimer := 0, damagedTimer := 0, destroyedTimer := 0 }

/-- One externally driven enemy operation per tick. -/
inductive EnemyOp where
  | update (dt : ℚ)
  | shoot
  | takeDamage (amount : Int)
  | setActive (b : Bool)

/-- Apply one enemy operation. -/
def Enemy.step (ml : MathLib) : EnemyOp → Enemy → Enemy
  | .update dt, e => e.update ml dt
  | .shoot, e => e.shoot
  | .takeDamage n, e => e.takeDamage n
  | .setActive b, e => e.setActive b

/-- Run a sequence of enemy operations. -/
def Enemy.run (ml : MathLib) (ops : List EnemyOp) (e : Enemy) : Enemy :=
  ops.foldl (fun a op => Enemy.step ml op a) e

/-! ## Concrete scenario instances used by counterexamples and witnesses -/

/-- A trivial stand-in for the JS math library (no claim depends on
trigonometric values). -/
def mlZero : MathLib := { sin := fun _ => 0, pi := 0 }

/-- A freshly constructed player at the default 800×600 screen with a
99×75 sprite. -/
def basePlayer : Player := mkPlayer 400 480 800 600 99 75

/-- A player brought to shieldHealth = 60, health = 100 by real operations:
collect a shield (refill to 100), then absorb a 40-damage hit. -/
def playerShield60 : Player := Player.takeDamage 40 (Player.addShield basePlayer)

/-- `basePlayer` after two 50-damage hits (50 then fatal 0). -/
def playerAfterFatal : Player :=
  Player.takeDamage 50 (Player.takeDamage 50 basePlayer)

/-- A freshly spawned enemy (all random draws 0, sprite present). -/
def baseEnemy : Enemy := mkEnemy mlZero 100 50 800 600 0 0 0 0 true true 40

/-- `baseEnemy` after three successful `shoot` calls: at the hard cap. -/
def enemyAtCap : Enemy := Enemy.shoot (Enemy.shoot (Enemy.shoot baseEnemy))

/-- A deactivated enemy. -/
def enemyDead : Enemy := Enemy.setActive false (Enemy.takeDamage 100 baseEnemy)

/-- A one-projectile player pool. -/
def rtPool0 : PPool := mkPPool 1 ProjType.player 50 (-10) 800 600

/-- `rtPool0` after `getProjectile` (hands out member 0) and
`fire(100, 200)` on it. -/
def rtPool2 : PPool := ((rtPool0.getProjectile).2).fire 0 100 200

/-- The fired projectile stored at slot 0 of `rtPool2`. -/
def rtProj : Projectile := (rtPool0.createProjectile).fire 100 200

/-- `basePlayer` moved into the Invulnerable state (as `onRespawn` does). -/
def playerInvulnerable : Player := Player.setState .invulnerable basePlayer

/-- `basePlayer` moved into the Destroyed state (as a fatal hit does). -/
def playerDestroyed : Player := Player.setState .destroyed basePlayer

lemma nodup_append_singleton {l : List Nat} {a : Nat}
    (h : l.Nodup) (ha : a ∉ l) : (l ++ [a]).Nodup := by
  rw [List.nodup_append]
  refine ⟨h, List.nodup_singleton _, ?_⟩
  intro x hx hx'
  simp only [List.mem_singleton] at hx'
  subst hx'
  exact ha hx

lemma mkPool_inv (n m : Nat) : PoolInv (mkPool n m) := by
  unfold PoolInv mkPool
  refine ⟨List.nodup_nil, List.nodup_range n, ?_, ?_, ?_⟩ <;> simp

lemma pool_step_total_le (op : PoolOp) (p : Pool) :
    p.getTotalCount ≤ (Pool.step op p).getTotalCount := by
  cases op with
  | get =>
    simp only [Pool.step, Pool.get]
    rcases h : p.inactiveObjects.getLast? with _ | obj
    · have hnil : p.inactiveObjects = [] := List.getLast?_eq_none_iff.mp h
      by_cases hcap : 0 < p.maxSize ∧ p.maxSize ≤ p.activeObjects.length
      · simp only [h, hcap, if_true]
        rcases ha : p.activeObjects with _ | ⟨o, rest⟩
        · simp [Pool.getTotalCount]
        · simp [Pool.getTotalCount, hnil, ha]
      · simp [h, hcap, Pool.getTotalCount, hnil]
    · have hne : p.inactiveObjects ≠ [] := by
        intro hc; rw [hc] at h; simp at h
      simp only [h, Pool.getTotalCount]
      have : p.inactiveObjects.dropLast.length = p.inactiveObjects.length - 1 :=
        List.length_dropLast _
      have hpos : 0 < p.inactiveObjects.length := List.length_pos.mpr hne
      simp only [List.length_append, List.length_singleton, this]
      omega
  | release i =>
    simp only [Pool.step, Pool.release, Pool.getTotalCount]
    have : p.activeObjects.length - 1 ≤ (p.activeObjects.erase i).length := by
      rw [List.length_erase]
      split <;> omega
    have hle : p.activeObjects.length ≤ (p.activeObjects.erase i).length + 1 := by
      rw [List.length_erase]
      split <;> omega
    simp only [List.length_append, List.length_singleton]
    omega

lemma pool_run_total_le (ops : List PoolOp) (p : Pool) :
    p.getTotalCount ≤ (Pool.run ops p).getTotalCount := by
  induction ops generalizing p with
  | nil => simp [Pool.run]
  | cons op rest ih =>
    calc p.getTotalCount ≤ (Pool.step op p).getTotalCount := pool_step_total_le op p
      _ ≤ (Pool.run rest (Pool.step op p)).getTotalCount := ih _
      _ = (Pool.run (op :: rest) p).getTotalCount := by simp [Pool.run]

lemma pool_get_inv {p : Pool} (h : PoolInv p) : PoolInv (Pool.step .get p) := by
  obtain ⟨ha, hi, hd, hba, hbi⟩ := h
  simp only [Pool.step, Pool.get]
  rcases hlast : p.inactiveObjects.getLast? with _ | obj
  · by_cases hcap : 0 < p.maxSize ∧ p.maxSize ≤ p.activeObjects.length
    · simp only [hlast, hcap, if_true]
      rcases hact : p.activeObjects with _ | ⟨o, rest⟩
      · exact ⟨ha, hi, hd, hba, hbi⟩
      · rw [hact] at ha hd hba
        have hperm : (rest ++ [o]).Perm (o :: rest) := List.perm_append_singleton o rest
        refine ⟨?_, hi, ?_, ?_, hbi⟩
        · exact hperm.nodup_iff.mpr ha
        · intro x hx
          exact hd x (hperm.mem_iff.mp hx)
        · intro x hx
          exact hba x (hperm.mem_iff.mp hx)
    · simp only [hlast, hcap, if_false]
      refine ⟨?_, hi, ?_, ?_, ?_⟩
      · refine nodup_append_singleton ha ?_
        intro hc
        exact absurd (hba _ hc) (lt_irrefl _)
      · intro x hx
        rcases List.mem_append.mp hx with h1 | h1
        · exact hd x h1
        · simp only [List.mem_singleton] at h1
          subst h1
          intro hc
          exact absurd (hbi _ hc) (lt_irrefl _)
      · intro x hx
        show x < p.nextId + 1
        rcases List.mem_append.mp hx with h1 | h1
        · exact Nat.lt_succ_of_lt (hba x h1)
        · simp only [List.mem_singleton] at h1
          subst h1
          exact Nat.lt_succ_self _
      · intro x hx
        exact Nat.lt_succ_of_lt (hbi x hx)
  · -- reuse the last inactive object
    have hsplit : p.inactiveObjects.dropLast ++ [obj] = p.inactiveObjects :=
      List.dropLast_append_getLast? obj hlast
    have hmem : obj ∈ p.inactiveObjects := by
      rw [← hsplit]; simp
    have hinodup : (p.inactiveObjects.dropLast ++ [obj]).Nodup := by
      rw [hsplit]; exact hi
    rw [List.nodup_append] at hinodup
    obtain ⟨hdrop, _, hdisj⟩ := hinodup
    have hobj_not_drop : obj ∉ p.inactiveObjects.dropLast := by
      intro hc
      exact hdisj hc (List.mem_singleton.mpr rfl)
    have hdropsub : p.inactiveObjects.dropLast ⊆ p.inactiveObjects := by
      intro x hx
      rw [← hsplit]
      exact List.mem_append_left _ hx
    simp only [hlast]
    refine ⟨?_, hdrop, ?_, ?_, ?_⟩
    · refine nodup_append_singleton ha ?_
      intro hc
      exact hd obj hc hmem
    · intro x hx
      rcases List.mem_append.mp hx with h1 | h1
      · intro hc
        exact hd x h1 (hdropsub hc)
      · simp only [List.mem_singleton] at h1
        subst h1
        exact hobj_not_drop
    · intro x hx
      rcases List.mem_append.mp hx with h1 | h1
      · exact hba x h1
      · simp only [List.mem_singleton] at h1
        subst h1
        exact hbi _ hmem
    · intro x hx
      exact hbi x (hdropsub hx)

lemma pool_release_inv {p : Pool} {i : Nat} (h : PoolInv p)
    (hmem : i ∈ p.activeObjects) : PoolInv (Pool.step (.release i) p) := by
  obtain ⟨ha, hi, hd, hba, hbi⟩ := h
  simp only [Pool.step, Pool.release]
  refine ⟨ha.erase i, ?_, ?_, ?_, ?_⟩
  · refine nodup_append_singleton hi ?_
    intro hc
    exact hd i hmem hc
  · intro x hx
    have hx' : x ≠ i ∧ x ∈ p.activeObjects := (List.Nodup.mem_erase_iff ha).mp hx
    intro hc
    rcases List.mem_append.mp hc with h1 | h1
    · exact hd x hx'.2 h1
    · simp only [List.mem_singleton] at h1
      exact hx'.1 h1
  · intro x hx
    exact hba x (List.erase_subset _ _ hx)
  · intro x hx
    rcases List.mem_append.mp hx with h1 | h1
    · exact hbi x h1
    · simp only [List.mem_singleton] at h1
      subst h1
      exact hba _ hmem

lemma pool_goodtrace_inv {p : Pool} {ops : List PoolOp} (h : PoolInv p)
    (ht : GoodTrace p ops) : PoolInv (Pool.run ops p) := by
  induction ht with
  | nil => exact h
  | get q rest _ ih =>
    have : PoolInv (Pool.step .get q) := pool_get_inv h
    simpa [Pool.run] using ih this
  | release q i rest hmem _ ih =>
    have : PoolInv (Pool.step (.release i) q) := pool_release_inv h hmem
    simpa [Pool.run] using ih this

/-! ## Claim theorems about `StateMachine.setState` (C1, C9) -/

/-- C1 (counterexample): the claim "calling `setState(X)` when already in
state X is a no-op that invokes neither the current state's `exit` nor its
`enter` callback" is false on the code.  For a machine currently in the
registered state `"x"`, with exit/enter call counters both 0, calling
`setState "x"` runs `exit` once and `enter` once (counters become `(1, 1)`):
`setState` only checks registration, never whether the name equals the
current state's name. -/
theorem setState_same_name_not_noop_cex :
    mC1.owner = (0, 0) ∧ (SM.setState "x" mC1).owner = (1, 1) := by
  exact ⟨rfl, rfl⟩

/-- C1 (amended): calling `setState(X)` on a machine whose current state is
named X (and registered) is **not** a no-op: it invokes the current state's
`exit` callback and then the registered state's `enter` callback; the
current-state reference becomes (stays) the state registered under X. -/
theorem setState_same_name_reenters {σ : Type} (m : SM σ) (c s : SMState σ)
    (X : String) (hc : m.currentState = some c)
    (hs : findState X m.states = some s) (_hname : c.name = X) :
    SM.setState X m =
      { m with currentState := some s, owner := s.enter (c.exit m.owner) } := by
  unfold SM.setState
  rw [hs, hc]

/-- Witness for `setState_same_name_reenters` at the instrumented machine. -/
theorem setState_same_name_reenters_witness :
    (mC1.currentState = some stateX ∧ findState "x" mC1.states = some stateX ∧
      stateX.name = "x") ∧
    SM.setState "x" mC1 =
      { mC1 with currentState := some stateX
                 owner := stateX.enter (stateX.exit mC1.owner) } :=
  ⟨⟨rfl, rfl, rfl⟩, setState_same_name_reenters mC1 stateX stateX "x" rfl rfl rfl⟩

/-- C9: calling `setState` with an unregistered name leaves the machine
(and in particular its current state) entirely unchanged, and `setState`
never turns a set current state into `null`: once started, the machine's
current state stays non-null after any `setState` call. -/
theorem setState_unregistered_preserves_state {σ : Type} (m : SM σ) (n : String)
    (h : findState n m.states = none) :
    SM.setState n m = m ∧
    ∀ n' : String, m.currentState.isSome → (SM.setState n' m).currentState.isSome := by
  constructor
  · unfold SM.setState
    rw [h]
  · intro n' h'
    unfold SM.setState
    rcases hfind : findState n' m.states with _ | s
    · exact h'
    · rfl

/-- Witness for `setState_unregistered_preserves_state`: the name `"z"` is
not registered in the instrumented machine and `setState "z"` is the
identity on it. -/
theorem setState_unregistered_preserves_state_witness :
    findState "z" mC1.states = none ∧ SM.setState "z" mC1 = mC1 :=
  ⟨rfl, (setState_unregistered_preserves_state mC1 "z" rfl).1⟩

/-! ## Claim theorems about `ObjectPool` (C4, C5) -/

/-- C4 (counterexample): the claim "no object is a member of both the
active and the inactive partition" fails for the sequence
`get; release 0; release 0; get` from an empty pool: the double `release`
duplicates object 0 in the inactive list, and the following `get` moves
one copy back to the active list, leaving object 0 in both partitions. -/
theorem pool_exclusivity_cex :
    0 ∈ (Pool.run [.get, .release 0, .release 0, .get] (mkPool 0 0)).activeObjects ∧
    0 ∈ (Pool.run [.get, .release 0, .release 0, .get] (mkPool 0 0)).inactiveObjects := by
  decide

/-- C4 (amended): for every pool and every finite sequence of
`get`/`release` calls, `activeCount + inactiveCount` never decreases; and
provided `release` is only ever called on objects that are members of the
active partition at that moment (`GoodTrace`), no object is ever a member
of both partitions. -/
theorem pool_conservation_and_exclusivity :
    (∀ (p : Pool) (ops : List PoolOp),
        p.getTotalCount ≤ (Pool.run ops p).getTotalCount) ∧
    (∀ (n m : Nat) (ops : List PoolOp), GoodTrace (mkPool n m) ops →
        ∀ x : Nat, ¬ (x ∈ (Pool.run ops (mkPool n m)).activeObjects ∧
                      x ∈ (Pool.run ops (mkPool n m)).inactiveObjects)) := by
  constructor
  · exact fun p ops => pool_run_total_le ops p
  · intro n m ops ht x hx
    obtain ⟨_, _, hd, _, _⟩ := pool_goodtrace_inv (mkPool_inv n m) ht
    exact hd x hx.1 hx.2

/-- Witness for `pool_conservation_and_exclusivity`: a concrete good trace
(`get` hands out object 1, then `release 1` is called on the active
object 1) on a pool of two preallocated objects. -/
theorem pool_conservation_and_exclusivity_witness :
    ((mkPool 2 0).getTotalCount ≤
       (Pool.run [.get, .release 1] (mkPool 2 0)).getTotalCount) ∧
    GoodTrace (mkPool 2 0) [.get, .release 1] ∧
    ¬ (1 ∈ (Pool.run [.get, .release 1] (mkPool 2 0)).activeObjects ∧
       1 ∈ (Pool.run [.get, .release 1] (mkPool 2 0)).inactiveObjects) := by
  have tr : GoodTrace (mkPool 2 0) [.get, .release 1] := by
    refine GoodTrace.get _ _ ?_
    refine GoodTrace.release _ 1 _ ?_ (GoodTrace.nil _)
    decide
  exact ⟨pool_conservation_and_exclusivity.1 (mkPool 2 0) _,
         tr, pool_conservation_and_exclusivity.2 2 0 _ tr 1⟩

/-- C5 (counterexample): `release` is not idempotent on an already-inactive
object.  In a pool whose only object 0 is inactive, calling `release 0`
grows the inactive partition from 1 entry to 2 (object 0 is appended
again): the source's `release` has no membership check on the inactive
side. -/
theorem pool_release_not_idempotent_cex :
    (mkPool 1 0).getInactiveCount = 1 ∧
    (Pool.release 0 (mkPool 1 0)).getInactiveCount = 2 := by
  decide

/-- C5 (amended): calling `release(obj)` on an object that is not in the
active partition leaves the active partition unchanged but unconditionally
appends the object to the inactive list again, so the inactive count grows
by one — `release` is **not** idempotent on already-inactive objects. -/
theorem pool_release_on_inactive_appends (p : Pool) (i : Nat)
    (h : i ∉ p.activeObjects) :
    (Pool.release i p).activeObjects = p.activeObjects ∧
    (Pool.release i p).inactiveObjects = p.inactiveObjects ++ [i] ∧
    (Pool.release i p).getInactiveCount = p.getInactiveCount + 1 := by
  unfold Pool.release Pool.getInactiveCount
  refine ⟨List.erase_of_not_mem h, rfl, by simp⟩

/-- Witness for `pool_release_on_inactive_appends` at a concrete pool whose
single object is inactive. -/
theorem pool_release_on_inactive_appends_witness :
    (0 ∉ (mkPool 1 0).activeObjects) ∧
    (Pool.release 0 (mkPool 1 0)).getInactiveCount =
      (mkPool 1 0).getInactiveCount + 1 :=
  ⟨by decide, (pool_release_on_inactive_appends (mkPool 1 0) 0 (by decide)).2.2⟩

/-! ## Claim theorems about `PlayerShip.takeDamage` (C2, C7) -/

/-- C2 (counterexample): the claim that damage beyond the remaining shield
carries into health in the same call is false on the code.  From
shieldHealth = 60, health = 100 (reached by `addShield` then a 40-damage
hit), `takeDamage 50` leaves shield 10 / health 100 as claimed, but the
second `takeDamage 50` clears the shield and leaves health at **100**, not
60: the shield branch returns without ever touching health. -/
theorem player_shield_no_overflow_cex :
    playerShield60.shieldHealth = 60 ∧ playerShield60.health = 100 ∧
    (Player.takeDamage 50 playerShield60).shieldHealth = 10 ∧
    (Player.takeDamage 50 playerShield60).health = 100 ∧
    (Player.takeDamage 50 (Player.takeDamage 50 playerShield60)).shieldHealth = 0 ∧
    (Player.takeDamage 50 (Player.takeDamage 50 playerShield60)).health = 100 ∧
    (Player.takeDamage 50 (Player.takeDamage 50 playerShield60)).health ≠ 60 := by
  decide

/-- C2 (amended): for a player with shieldHealth = 60 and health = 100 (in
a state that accepts damage), `takeDamage 50` yields shield 10 / health
100, and a subsequent `takeDamage 50` yields shield 0 (cleared) / health
**100**: the shield absorbs the whole hit regardless of remaining capacity
and no damage carries into health in the same call. -/
theorem player_shield_full_absorb (p : Player)
    (hf : ¬ (p.fsm = PlayerFsm.destroyed ∨ p.fsm = PlayerFsm.invulnerable))
    (hsh : p.shieldHealth = 60) (hh : p.health = 100) :
    (Player.takeDamage 50 p).shieldHealth = 10 ∧
    (Player.takeDamage 50 p).health = 100 ∧
    (Player.takeDamage 50 (Player.takeDamage 50 p)).shieldHealth = 0 ∧
    (Player.takeDamage 50 (Player.takeDamage 50 p)).health = 100 := by
  have h1 : Player.takeDamage 50 p = { p with shieldHealth := 10 } := by
    unfold Player.takeDamage
    rw [if_neg hf, hsh]
    norm_num
  have h2 : Player.takeDamage 50 { p with shieldHealth := 10 } =
      { p with shieldHealth := 0 } := by
    unfold Player.takeDamage
    rw [if_neg (show ¬ (({ p with shieldHealth := 10 } : Player).fsm =
        PlayerFsm.destroyed ∨ ({ p with shieldHealth := 10 } : Player).fsm =
        PlayerFsm.invulnerable) from hf)]
    norm_num
  rw [h1, h2]
  exact ⟨rfl, hh, rfl, hh⟩

/-- Witness for `player_shield_full_absorb` at `playerShield60`. -/
theorem player_shield_full_absorb_witness :
    (¬ (playerShield60.fsm = PlayerFsm.destroyed ∨
        playerShield60.fsm = PlayerFsm.invulnerable) ∧
      playerShield60.shieldHealth = 60 ∧ playerShield60.health = 100) ∧
    (Player.takeDamage 50 (Player.takeDamage 50 playerShield60)).health = 100 :=
  ⟨⟨by decide, by decide, by decide⟩,
   (player_shield_full_absorb playerShield60 (by decide) (by decide) (by decide)).2.2.2⟩

/-- C7: while the player's FSM is in Destroyed or Invulnerable,
`takeDamage` is a no-op for every amount: the entire player record — in
particular health, shieldHealth and the current state — is unchanged. -/
theorem player_damage_blocked_states (p : Player) (amount : Int)
    (h : p.fsm = PlayerFsm.destroyed ∨ p.fsm = PlayerFsm.invulnerable) :
    Player.takeDamage amount p = p ∧
    (Player.takeDamage amount p).health = p.health ∧
    (Player.takeDamage amount p).shieldHealth = p.shieldHealth ∧
    (Player.takeDamage amount p).fsm = p.fsm := by
  have h1 : Player.takeDamage amount p = p := by
    unfold Player.takeDamage
    rw [if_pos h]
  exact ⟨h1, by rw [h1], by rw [h1], by rw [h1]⟩

/-- Witness for `player_damage_blocked_states`: a 9999-damage hit on an
invulnerable player changes nothing. -/
theorem player_damage_blocked_states_witness :
    (playerInvulnerable.fsm = PlayerFsm.destroyed ∨
      playerInvulnerable.fsm = PlayerFsm.invulnerable) ∧
    Player.takeDamage 9999 playerInvulnerable = playerInvulnerable :=
  ⟨Or.inr (by decide),
   (player_damage_blocked_states playerInvulnerable 9999 (Or.inr (by decide))).1⟩

/-! ## Claim theorem about lives / game over on player destruction (C3) -/

/-- C3 (code evaluation at the failing input): a fresh player (lives = 3)
takes two 50-damage hits; the second reduces health to 0 and the FSM enters
Destroyed — but `lives` is still 3 and the game-over notification count is
still 0.  `PlayerShip.takeDamage` calls `setState('destroyed')` directly;
the only code that decrements `lives` and fires game over is
`PlayerShip.destroy`, which no damage path invokes (earlier revisions of
the file called `this.destroy()` here). -/
theorem player_fatal_hit_keeps_lives :
    basePlayer.lives = 3 ∧
    playerAfterFatal.fsm = PlayerFsm.destroyed ∧
    playerAfterFatal.health = 0 ∧
    playerAfterFatal.lives = 3 ∧
    playerAfterFatal.gameOverCalls = 0 := by
  decide

/-! ## Claim theorems about `EnemyShip` (C6, C10) -/

lemma enemy_stateEnter_projs (s : EnemyFsm) (e : Enemy) :
    (Enemy.stateEnter s e).activeProjectiles = e.activeProjectiles := by
  cases s <;> rfl

lemma enemy_setState_projs (s : EnemyFsm) (e : Enemy) :
    (Enemy.setState s e).activeProjectiles = e.activeProjectiles := by
  cases s <;> rfl

lemma enemy_setActive_projs (b : Bool) (e : Enemy) :
    (Enemy.setActive b e).activeProjectiles = e.activeProjectiles := by
  cases b <;> rfl

lemma enemy_takeDamage_projs (n : Int) (e : Enemy) :
    (Enemy.takeDamage n e).activeProjectiles = e.activeProjectiles := by
  dsimp only [Enemy.takeDamage]
  split
  · rfl
  · split <;> simp [enemy_setState_projs]

lemma enemy_move_projs (ml : MathLib) (dt : ℚ) (e : Enemy) :
    (Enemy.move ml dt e).activeProjectiles = e.activeProjectiles := by
  dsimp only [Enemy.move]
  repeat' split
  all_goals rfl

lemma enemy_fsmUpdate_projs (ml : MathLib) (dt : ℚ) (e : Enemy) :
    (Enemy.fsmUpdate ml dt e).activeProjectiles = e.activeProjectiles := by
  dsimp only [Enemy.fsmUpdate]
  split
  · rfl
  · exact enemy_move_projs ml dt e
  · split
    · simp [enemy_setState_projs]
    · rfl
  · split
    · split <;> simp [enemy_setState_projs]
    · rfl
  · rfl

lemma enemy_shoot_len {e : Enemy} (h : e.activeProjectiles.length ≤ 3) :
    (Enemy.shoot e).activeProjectiles.length ≤ 3 := by
  unfold Enemy.shoot
  split
  · exact h
  · split
    · exact h
    · rename_i hcap
      simp only [enemy_setState_projs, List.length_append, List.length_singleton]
      omega

lemma enemy_updateShootPhase_len {e : Enemy} (h : e.activeProjectiles.length ≤ 3) :
    (Enemy.updateShootPhase e).activeProjectiles.length ≤ 3 := by
  unfold Enemy.updateShootPhase
  split
  · exact enemy_shoot_len h
  · exact h

lemma enemy_updateProjsPhase_len (dt : ℚ) {e : Enemy}
    (h : e.activeProjectiles.length ≤ 3) :
    (Enemy.updateProjsPhase dt e).activeProjectiles.length ≤ 3 := by
  unfold Enemy.updateProjsPhase
  refine le_trans (le_trans (List.length_filter_le _ _) ?_) h
  rw [List.length_map]

lemma enemy_updateBoundsPhase_len {e : Enemy}
    (h : e.activeProjectiles.length ≤ 3) :
    (Enemy.updateBoundsPhase e).activeProjectiles.length ≤ 3 := by
  unfold Enemy.updateBoundsPhase
  split
  · split
    · rw [enemy_setActive_projs]; exact h
    · exact h
  · exact h

lemma enemy_update_len (ml : MathLib) (dt : ℚ) {e : Enemy}
    (h : e.activeProjectiles.length ≤ 3) :
    (Enemy.update ml dt e).activeProjectiles.length ≤ 3 := by
  have h1 : (Enemy.fsmUpdate ml dt e).activeProjectiles.length ≤ 3 := by
    rw [enemy_fsmUpdate_projs]; exact h
  exact enemy_updateBoundsPhase_len
    (enemy_updateProjsPhase_len dt (enemy_updateShootPhase_len h1))

lemma enemy_step_len (ml : MathLib) (op : EnemyOp) {e : Enemy}
    (h : e.activeProjectiles.length ≤ 3) :
    (Enemy.step ml op e).activeProjectiles.length ≤ 3 := by
  cases op with
  | update dt => exact enemy_update_len ml dt h
  | shoot => exact enemy_shoot_len h
  | takeDamage n => rw [Enemy.step, enemy_takeDamage_projs]; exact h
  | setActive b => rw [Enemy.step, enemy_setActive_projs]; exact h

lemma enemy_run_len (ml : MathLib) (ops : List EnemyOp) {e : Enemy}
    (h : e.activeProjectiles.length ≤ 3) :
    (Enemy.run ml ops e).activeProjectiles.length ≤ 3 := by
  induction ops generalizing e with
  | nil => exact h
  | cons op rest ih =>
    have : Enemy.run ml (op :: rest) e = Enemy.run ml rest (Enemy.step ml op e) := by
      simp [Enemy.run]
    rw [this]
    exact ih (enemy_step_len ml op h)

/-- C6: over every sequence of ticks and calls starting from a freshly
constructed enemy, the outstanding-shots list never exceeds length 3; and
`shoot()` with 3 shots outstanding — or on an inactive enemy — returns the
enemy entirely unchanged (no projectile created, list untouched). -/
theorem enemy_shot_cap :
    (∀ (ml : MathLib) (x y w h r0 r1 r2 r3 : ℚ) (dir hs : Bool) (sh : ℚ)
        (ops : List EnemyOp),
        (Enemy.run ml ops
            (mkEnemy ml x y w h r0 r1 r2 r3 dir hs sh)).activeProjectiles.length
          ≤ 3) ∧
    (∀ e : Enemy, 3 ≤ e.activeProjectiles.length → Enemy.shoot e = e) ∧
    (∀ e : Enemy, e.active = false → Enemy.shoot e = e) := by
  refine ⟨?_, ?_, ?_⟩
  · intro ml x y w h r0 r1 r2 r3 dir hs sh ops
    refine enemy_run_len ml ops ?_
    simp [mkEnemy]
  · intro e hcap
    dsimp only [Enemy.shoot]
    split <;> rfl
  · intro e hina
    dsimp only [Enemy.shoot]
    split
    · rfl
    · rename_i hguard
      exact absurd (Or.inl (by simp [hina])) hguard

/-- Witness for `enemy_shot_cap`: a concrete enemy at the 3-shot cap and a
concrete deactivated enemy, on both of which `shoot` is the identity. -/
theorem enemy_shot_cap_witness :
    (3 ≤ enemyAtCap.activeProjectiles.length ∧ Enemy.shoot enemyAtCap = enemyAtCap) ∧
    (enemyDead.active = false ∧ Enemy.shoot enemyDead = enemyDead) :=
  ⟨⟨by decide, enemy_shot_cap.2.1 enemyAtCap (by decide)⟩,
   ⟨by decide, enemy_shot_cap.2.2 enemyDead (by decide)⟩⟩

/-- C10: `setActive(true)` on a previously deactivated enemy resets its
health to 100, forces its state machine into Moving, and reactivates it —
a reactivated enemy retains neither damage nor a terminal state. -/
theorem enemy_reactivation_resets (e : Enemy) (_h : e.active = false) :
    (Enemy.setActive true e).health = 100 ∧
    (Enemy.setActive true e).fsm = EnemyFsm.moving ∧
    (Enemy.setActive true e).active = true := by
  unfold Enemy.setActive Enemy.setState Enemy.stateEnter
  simp

/-- Witness for `enemy_reactivation_resets` at a destroyed-then-deactivated
enemy. -/
theorem enemy_reactivation_resets_witness :
    enemyDead.active = false ∧
    (Enemy.setActive true enemyDead).health = 100 ∧
    (Enemy.setActive true enemyDead).fsm = EnemyFsm.moving ∧
    (Enemy.setActive true enemyDead).active = true :=
  ⟨by decide, enemy_reactivation_resets enemyDead (by decide)⟩

/-! ## Claim theorem about the projectile round trip (C8)

The pool's per-frame `update` iterates the active array from its last
index down to 0, updating each member; a member that transitions to
Inactive removes itself from the array mid-loop (via `returnToPool` →
`returnProjectile`).  The lemmas below track one exploding member through
that loop. -/

lemma getElem?_eraseIdx_of_lt {α : Type} (l : List α) (i j : Nat) (h : j < i) :
    (l.eraseIdx i)[j]? = l[j]? := by
  induction l generalizing i j with
  | nil => simp [List.eraseIdx]
  | cons a as ih =>
    cases i with
    | zero => omega
    | succ i =>
      cases j with
      | zero => simp [List.eraseIdx_cons_succ]
      | succ j =>
        simp only [List.eraseIdx_cons_succ, List.getElem?_cons_succ]
        exact ih i j (by omega)

lemma getElem?_eraseIdx_of_ge {α : Type} (l : List α) (i j : Nat) (h : i ≤ j) :
    (l.eraseIdx i)[j]? = l[j + 1]? := by
  induction l generalizing i j with
  | nil => simp [List.eraseIdx]
  | cons a as ih =>
    cases i with
    | zero => simp [List.eraseIdx_cons_zero]
    | succ i =>
      cases j with
      | zero => omega
      | succ j =>
        simp only [List.eraseIdx_cons_succ, List.getElem?_cons_succ]
        exact ih i j (by omega)

lemma erase_eq_eraseIdx_of_nodup {l : List Nat} {i : Nat} {a : Nat}
    (hn : l.Nodup) (h : l[i]? = some a) : l.erase a = l.eraseIdx i := by
  induction l generalizing i with
  | nil => simp at h
  | cons b bs ih =>
    cases i with
    | zero =>
      simp only [List.getElem?_cons_zero, Option.some_inj] at h
      subst h
      simp [List.eraseIdx_cons_zero, List.erase_cons_head]
    | succ i =>
      simp only [List.getElem?_cons_succ] at h
      have hmem : a ∈ bs := List.mem_iff_getElem?.mpr ⟨i, h⟩
      have hne : b ≠ a := by
        intro hc
        subst hc
        exact (List.nodup_cons.mp hn).1 hmem
      rw [List.eraseIdx_cons_succ, List.erase_cons_tail]
      · rw [ih (List.nodup_cons.mp hn).2 h]
      · simp [hne]

/-- `Entity.update` on a projectile whose FSM is Exploding: accumulate the
timer; at the explosion duration, transition to Inactive and request the
pool reclaim. -/
lemma projectile_update_exploding {p : Projectile} (dt : ℚ)
    (hs : p.state = ProjState.exploding) (hp : p.hasPool = true) :
    p.update dt =
      if explosionTime ≤ p.explosionTimer + dt then
        ({ p with state := ProjState.inactive
                  explosionTimer := p.explosionTimer + dt
                  active := false }, true)
      else ({ p with explosionTimer := p.explosionTimer + dt }, false) := by
  unfold Projectile.update
  rw [hs]
  dsimp only [Projectile.setState]
  split
  · rw [hp]
  · rfl

lemma getElem?_inj' {l : List Nat} (hnd : l.Nodup) {i k : Nat} {a : Nat}
    (h1 : l[i]? = some a) (h2 : l[k]? = some a) : i = k := by
  have hlt : i < l.length := (List.getElem?_eq_some_iff.mp h1).1
  exact List.getElem?_inj hlt hnd (by rw [h1, h2])

/-- One iteration of the descending update loop preserves the loop
invariant, moving the index from `i + 1` down to `i`. -/
lemma descInv_step (dt : ℚ) (id : Nat) (t : ℚ) (i : Nat) {s : PPool}
    (h : DescInv dt id t (i + 1) s) : DescInv dt id t i (s.processPos dt i) := by
  obtain ⟨hnd, hcase⟩ := h
  unfold PPool.processPos
  rcases hai : s.activeIds[i]? with _ | id'
  · -- position i out of range: no effect
    show DescInv dt id t i s
    refine ⟨hnd, ?_⟩
    rcases hcase with ⟨he, k, hk, hget⟩ | h2 | ⟨hc, he, k, hk, hget⟩
    · refine Or.inl ⟨he, k, ?_, hget⟩
      have hne : k ≠ i := by
        intro hc'
        subst hc'
        rw [hai] at hget
        exact Option.noConfusion hget
      omega
    · exact Or.inr (Or.inl h2)
    · exact Or.inr (Or.inr ⟨hc, he, k, by omega, hget⟩)
  · have hmem_i : id' ∈ s.activeIds := List.mem_iff_getElem?.mpr ⟨i, hai⟩
    by_cases hid : id' = id
    · -- the watched member itself is processed at position i
      subst hid
      -- only the "not yet processed" disjunct is possible here
      rcases hcase with ⟨he, k, hk, hget⟩ | ⟨hc, hrec, hnin, _⟩ | ⟨hc, he, k, hk, hget⟩
      · obtain ⟨hnin, p0, hp0, hst, htm, hpl⟩ := he
        simp only [hp0]
        rw [projectile_update_exploding dt hst hpl, htm]
        have hplen : id' < s.projs.length :=
          (List.getElem?_eq_some_iff.mp hp0).1
        by_cases hcond : explosionTime ≤ t + dt
        · rw [if_pos hcond]
          show DescInv dt id' t i (PPool.returnProjectile id'
            { s with projs := s.projs.set id' ({ p0 with
                state := ProjState.inactive, explosionTimer := t + dt,
                active := false }) })
          refine ⟨?_, Or.inr (Or.inl ⟨hcond, ?_, ?_, ?_⟩)⟩
          · show (s.activeIds.erase id').Nodup
            exact hnd.erase id'
          · show id' ∉ s.activeIds.erase id'
            intro hc'
            exact ((List.Nodup.mem_erase_iff hnd).mp hc').1 rfl
          · show id' ∈ (if id' ∈ s.inactiveIds then s.inactiveIds
                        else s.inactiveIds ++ [id'])
            rw [if_neg hnin]
            simp
          · exact ⟨_, List.getElem?_set_self hplen, rfl⟩
        · rw [if_neg hcond]
          show DescInv dt id' t i
            { s with projs := s.projs.set id' ({ p0 with explosionTimer := t + dt }) }
          refine ⟨hnd, Or.inr (Or.inr ⟨hcond, ⟨hnin, ?_⟩, i, le_refl i, hai⟩)⟩
          exact ⟨_, List.getElem?_set_self hplen, hst, rfl, hpl⟩
      · -- contradiction: a reclaimed member is not in the active array
        exact absurd hmem_i hrec
      · -- contradiction: the already-processed member would sit at two positions
        have : i = k := getElem?_inj' hnd hai hget
        omega
    · -- a different member is processed at position i
      have hne' : id ≠ id' := fun hc => hid hc.symm
      rcases hpj : s.projs[id']? with _ | p
      · -- store miss: no effect
        simp only [hpj]
        show DescInv dt id t i s
        refine ⟨hnd, ?_⟩
        rcases hcase with ⟨he, k, hk, hget⟩ | h2 | ⟨hc, he, k, hk, hget⟩
        · refine Or.inl ⟨he, k, ?_, hget⟩
          have hne : k ≠ i := by
            intro hc'
            subst hc'
            rw [hai] at hget
            exact hid (Option.some_inj.mp hget)
          omega
        · exact Or.inr (Or.inl h2)
        · exact Or.inr (Or.inr ⟨hc, he, k, by omega, hget⟩)
      · simp only [hpj]
        rcases hupd : p.update dt with ⟨p1, req⟩
        have hstore : ∀ j : Nat, j ≠ id' →
            (s.projs.set id' p1)[j]? = s.projs[j]? := by
          intro j hj
          exact List.getElem?_set_ne (fun hc => hj hc.symm)
        cases req with
        | false =>
          show DescInv dt id t i { s with projs := s.projs.set id' p1 }
          refine ⟨hnd, ?_⟩
          rcases hcase with ⟨he, k, hk, hget⟩ | ⟨hc, hr1, hr2, pr, hpr, hprs⟩ |
            ⟨hc, he, k, hk, hget⟩
          · obtain ⟨hnin, p0, hp0, hst, htm, hpl⟩ := he
            refine Or.inl ⟨⟨hnin, p0, ?_, hst, htm, hpl⟩, k, ?_, hget⟩
            · show (s.projs.set id' p1)[id]? = some p0
              rw [hstore id hne']
              exact hp0
            · have hne : k ≠ i := by
                intro hc'
                subst hc'
                rw [hai] at hget
                exact hid (Option.some_inj.mp hget)
              omega
          · refine Or.inr (Or.inl ⟨hc, hr1, hr2, pr, ?_, hprs⟩)
            show (s.projs.set id' p1)[id]? = some pr
            rw [hstore id hne']
            exact hpr
          · obtain ⟨hnin, p0, hp0, hst, htm, hpl⟩ := he
            refine Or.inr (Or.inr ⟨hc, ⟨hnin, p0, ?_, hst, htm, hpl⟩, k, by omega, hget⟩)
            show (s.projs.set id' p1)[id]? = some p0
            rw [hstore id hne']
            exact hp0
        | true =>
          show DescInv dt id t i
            (PPool.returnProjectile id' { s with projs := s.projs.set id' p1 })
          have herase : s.activeIds.erase id' = s.activeIds.eraseIdx i :=
            erase_eq_eraseIdx_of_nodup hnd hai
          have hnd' : (s.activeIds.erase id').Nodup := hnd.erase id'
          have hinact : ∀ j : Nat, j ≠ id' →
              (j ∈ (if id' ∈ s.inactiveIds then s.inactiveIds
                    else s.inactiveIds ++ [id']) ↔ j ∈ s.inactiveIds) := by
            intro j hj
            split
            · exact Iff.rfl
            · simp [hj]
          refine ⟨hnd', ?_⟩
          rcases hcase with ⟨he, k, hk, hget⟩ | ⟨hc, hr1, hr2, pr, hpr, hprs⟩ |
            ⟨hc, he, k, hk, hget⟩
          · obtain ⟨hnin, p0, hp0, hst, htm, hpl⟩ := he
            have hne : k ≠ i := by
              intro hc'
              subst hc'
              rw [hai] at hget
              exact hid (Option.some_inj.mp hget)
            refine Or.inl ⟨⟨?_, p0, ?_, hst, htm, hpl⟩, k, by omega, ?_⟩
            · show id ∉ (if id' ∈ s.inactiveIds then s.inactiveIds
                         else s.inactiveIds ++ [id'])
              rw [hinact id hne']
              exact hnin
            · show (s.projs.set id' p1)[id]? = some p0
              rw [hstore id hne']
              exact hp0
            · show (s.activeIds.erase id')[k]? = some id
              rw [herase, getElem?_eraseIdx_of_lt _ i k (by omega)]
              exact hget
          · refine Or.inr (Or.inl ⟨hc, ?_, ?_, pr, ?_, hprs⟩)
            · show id ∉ s.activeIds.erase id'
              intro hc'
              exact hr1 (List.erase_subset _ _ hc')
            · show id ∈ (if id' ∈ s.inactiveIds then s.inactiveIds
                         else s.inactiveIds ++ [id'])
              rw [hinact id hne']
              exact hr2
            · show (s.projs.set id' p1)[id]? = some pr
              rw [hstore id hne']
              exact hpr
          · obtain ⟨hnin, p0, hp0, hst, htm, hpl⟩ := he
            have hne : k ≠ i := by
              intro hc'
              subst hc'
              rw [hai] at hget
              exact hid (Option.some_inj.mp hget)
            have hki : i + 1 ≤ k := hk
            refine Or.inr (Or.inr ⟨hc, ⟨?_, p0, ?_, hst, htm, hpl⟩, k - 1, by omega, ?_⟩)
            · show id ∉ (if id' ∈ s.inactiveIds then s.inactiveIds
                         else s.inactiveIds ++ [id'])
              rw [hinact id hne']
              exact hnin
            · show (s.projs.set id' p1)[id]? = some p0
              rw [hstore id hne']
              exact hp0
            · show (s.activeIds.erase id')[k - 1]? = some id
              rw [herase, getElem?_eraseIdx_of_ge _ i (k - 1) (by omega)]
              have hk1 : k - 1 + 1 = k := by omega
              rw [hk1]
              exact hget

/-- Running the descending loop from index `i` down to 0 preserves the
invariant down to index 0. -/
lemma descInv_run (dt : ℚ) (id : Nat) (t : ℚ) :
    ∀ (i : Nat) (s : PPool), DescInv dt id t i s →
      DescInv dt id t 0 (PPool.updateAux dt i s) := by
  intro i
  induction i with
  | zero => intro s h; exact h
  | succ i ih =>
    intro s h
    exact ih _ (descInv_step dt id t i h)

/-- Once reclaimed, a member stays reclaimed through any loop step: other
members' updates only touch their own store slots, remove only themselves
from the active array, and append only themselves to the inactive list. -/
lemma processPos_reclaimed (dt : ℚ) (i : Nat) {s : PPool} {id : Nat}
    (h : ReclaimedAt s id) : ReclaimedAt (s.processPos dt i) id := by
  obtain ⟨hna, hin, p, hp, hps⟩ := h
  unfold PPool.processPos
  rcases hai : s.activeIds[i]? with _ | id'
  · exact ⟨hna, hin, p, hp, hps⟩
  · have hmem_i : id' ∈ s.activeIds := List.mem_iff_getElem?.mpr ⟨i, hai⟩
    have hne : id ≠ id' := fun hc => hna (hc ▸ hmem_i)
    rcases hpj : s.projs[id']? with _ | q
    · simp only [hpj]
      exact ⟨hna, hin, p, hp, hps⟩
    · simp only [hpj]
      rcases hupd : q.update dt with ⟨q1, req⟩
      have hstore : (s.projs.set id' q1)[id]? = s.projs[id]? :=
        List.getElem?_set_ne (fun hc => hne hc.symm)
      cases req with
      | false =>
        show ReclaimedAt { s with projs := s.projs.set id' q1 } id
        refine ⟨hna, hin, p, ?_, hps⟩
        rw [hstore]
        exact hp
      | true =>
        show ReclaimedAt
          (PPool.returnProjectile id' { s with projs := s.projs.set id' q1 }) id
        refine ⟨?_, ?_, p, ?_, hps⟩
        · show id ∉ s.activeIds.erase id'
          intro hc
          exact hna (List.erase_subset _ _ hc)
        · show id ∈ (if id' ∈ s.inactiveIds then s.inactiveIds
                     else s.inactiveIds ++ [id'])
          split
          · exact hin
          · exact List.mem_append_left _ hin
        · show (s.projs.set id' q1)[id]? = some p
          rw [hstore]
          exact hp

lemma updateAux_reclaimed (dt : ℚ) {id : Nat} :
    ∀ (i : Nat) {s : PPool}, ReclaimedAt s id →
      ReclaimedAt (PPool.updateAux dt i s) id := by
  intro i
  induction i with
  | zero => intro s h; exact h
  | succ i ih =>
    intro s h
    exact ih (processPos_reclaimed dt i h)

lemma update_reclaimed (dt : ℚ) {s : PPool} {id : Nat}
    (h : ReclaimedAt s id) : ReclaimedAt (s.update dt) id :=
  updateAux_reclaimed dt _ h

lemma iterate_reclaimed (dt : ℚ) {id : Nat} :
    ∀ (n : Nat) {s : PPool}, ReclaimedAt s id →
      ReclaimedAt (PPool.iterate dt n s) id := by
  intro n
  induction n with
  | zero => intro s h; exact h
  | succ n ih =>
    intro s h
    exact ih (update_reclaimed dt h)

/-- One whole `ProjectilePool.update` pass over an exploding member:
reclaim if the timer crosses the explosion duration, otherwise the member
is still exploding with `dt` more on its timer. -/
lemma update_exploding_pass (dt : ℚ) {s : PPool} {id : Nat} {t : ℚ}
    (hnd : s.activeIds.Nodup) (he : ExplProj s id t) (hmem : id ∈ s.activeIds) :
    (explosionTime ≤ t + dt → ReclaimedAt (s.update dt) id) ∧
    (¬ explosionTime ≤ t + dt →
      (s.update dt).activeIds.Nodup ∧ ExplProj (s.update dt) id (t + dt) ∧
      id ∈ (s.update dt).activeIds) := by
  obtain ⟨k, hk⟩ := List.mem_iff_getElem?.mp hmem
  have hklt : k < s.activeIds.length := (List.getElem?_eq_some_iff.mp hk).1
  have h0 : DescInv dt id t s.activeIds.length s := ⟨hnd, Or.inl ⟨he, k, hklt, hk⟩⟩
  have hres := descInv_run dt id t s.activeIds.length s h0
  obtain ⟨hnd', hcase⟩ := hres
  constructor
  · intro hcond
    rcases hcase with ⟨_, k', hk', _⟩ | ⟨_, hrec⟩ | ⟨hc, _, _⟩
    · omega
    · exact hrec
    · exact absurd hcond hc
  · intro hcond
    rcases hcase with ⟨_, k', hk', _⟩ | ⟨hc, _⟩ | ⟨_, he', k', _, hget'⟩
    · omega
    · exact absurd hc hcond
    · exact ⟨hnd', he', List.mem_iff_getElem?.mpr ⟨k', hget'⟩⟩

/-- Iterating whole passes from an exploding member reclaims it as soon as
the accumulated time `n * dt` reaches the explosion duration. -/
lemma expl_countdown (dt : ℚ) (id : Nat) :
    ∀ (n : Nat) (s : PPool) (t : ℚ),
      s.activeIds.Nodup → ExplProj s id t → id ∈ s.activeIds →
      t < explosionTime → explosionTime ≤ t + n * dt →
      ReclaimedAt (PPool.iterate dt n s) id := by
  intro n
  induction n with
  | zero =>
    intro s t _ _ _ hlt hge
    exfalso
    push_cast at hge
    linarith
  | succ n ih =>
    intro s t hnd he hmem hlt hge
    have hpass := update_exploding_pass dt hnd he hmem
    by_cases hcond : explosionTime ≤ t + dt
    · have hrec := hpass.1 hcond
      exact iterate_reclaimed dt n hrec
    · obtain ⟨hnd', he', hmem'⟩ := hpass.2 hcond
      refine ih (s.update dt) (t + dt) hnd' he' hmem' (by linarith) ?_
      push_cast at hge
      linarith

/-- C8: a fired pool projectile that receives `onCollision()` is reclaimed
into its pool's inactive partition once the fixed exploding duration has
elapsed under pool update ticks (its state is then Inactive); a member
sitting at the tail of the inactive list is handed out again by
`getProjectile`; and `fire(x, y)` on a stored member resets its position
to `(x, y)` and its state to Active. -/
theorem projectile_round_trip :
    (∀ (s : PPool) (id : Nat) (p : Projectile) (dt : ℚ) (n : Nat),
        s.activeIds.Nodup → id ∈ s.activeIds → id ∉ s.inactiveIds →
        s.projs[id]? = some p → p.hasPool = true → p.state = ProjState.active →
        0 < dt → explosionTime ≤ n * dt →
        ReclaimedAt (PPool.iterate dt n (s.onCollision id)) id) ∧
    (∀ (s : PPool) (l : List Nat) (id : Nat), s.inactiveIds = l ++ [id] →
        (s.getProjectile).1 = id ∧ id ∈ (s.getProjectile).2.activeIds) ∧
    (∀ (s : PPool) (id : Nat) (p : Projectile) (x y : ℚ),
        s.projs[id]? = some p →
        (s.fire id x y).projs[id]? = some (p.fire x y) ∧
        (p.fire x y).x = x ∧ (p.fire x y).y = y ∧
        (p.fire x y).state = ProjState.active ∧ (p.fire x y).active = true) := by
  refine ⟨?_, ?_, ?_⟩
  · intro s id p dt n hnd hmem hnin hp hpl _hact _hdt hn
    have hplen : id < s.projs.length := (List.getElem?_eq_some_iff.mp hp).1
    have honc : s.onCollision id = { s with projs := s.projs.set id p.onCollision } := by
      unfold PPool.onCollision
      rw [hp]
    rw [honc]
    refine expl_countdown dt id n _ 0 hnd ⟨hnin, p.onCollision, ?_, rfl, rfl, ?_⟩
      hmem (by norm_num [explosionTime]) ?_
    · exact List.getElem?_set_self hplen
    · show p.hasPool = true
      exact hpl
    · simpa using hn
  · intro s l id hin
    unfold PPool.getProjectile
    rw [hin, List.getLast?_concat]
    refine ⟨rfl, ?_⟩
    show id ∈ s.activeIds ++ [id]
    simp
  · intro s id p x y hp
    have hplen : id < s.projs.length := (List.getElem?_eq_some_iff.mp hp).1
    refine ⟨?_, rfl, rfl, rfl, rfl⟩
    unfold PPool.fire
    rw [hp]
    show (s.projs.set id (p.fire x y))[id]? = some (p.fire x y)
    exact List.getElem?_set_self hplen

/-- Witness for `projectile_round_trip`: one concrete projectile from a
one-slot pool is fired, collided, reclaimed after a single 1-unit tick,
handed out again, and re-fired with its position reset. -/
theorem projectile_round_trip_witness :
    (rtPool2.activeIds.Nodup ∧ 0 ∈ rtPool2.activeIds ∧ 0 ∉ rtPool2.inactiveIds ∧
      rtPool2.projs[0]? = some rtProj ∧ rtProj.hasPool = true ∧
      rtProj.state = ProjState.active ∧ (0 : ℚ) < 1 ∧
      explosionTime ≤ ((1 : Nat) : ℚ) * 1) ∧
    ReclaimedAt (PPool.iterate 1 1 (rtPool2.onCollision 0)) 0 ∧
    (rtPool0.inactiveIds = [] ++ [0] ∧ (rtPool0.getProjectile).1 = 0 ∧
      0 ∈ (rtPool0.getProjectile).2.activeIds) ∧
    (rtPool0.projs[0]? = some rtPool0.createProjectile ∧
      ((rtPool0.createProjectile).fire 5 7).x = 5 ∧
      ((rtPool0.createProjectile).fire 5 7).y = 7 ∧
      ((rtPool0.createProjectile).fire 5 7).state = ProjState.active) := by
  refine ⟨⟨by decide, by decide, by decide, by decide, by decide, by decide,
      by norm_num, by norm_num [explosionTime]⟩, ?_, ?_, ?_⟩
  · exact projectile_round_trip.1 rtPool2 0 rtProj 1 1 (by decide) (by decide)
      (by decide) (by decide) (by decide) (by decide) (by norm_num)
      (by norm_num [explosionTime])
  · refine ⟨by decide, ?_, ?_⟩
    · exact (projectile_round_trip.2.1 rtPool0 [] 0 (by decide)).1
    · exact (projectile_round_trip.2.1 rtPool0 [] 0 (by decide)).2
  · have h := projectile_round_trip.2.2 rtPool0 0 rtPool0.createProjectile
      5 7 (by decide)
    exact ⟨by decide, h.2.1, h.2.2.1, h.2.2.2.1⟩

end VibeShooter
